import Mathlib

/-!
# Open-Minions run orchestrator: a shallow embedding

This file embeds the core of the Open-Minions coding-agent pipeline in Lean 4
and proves properties of it:

* `src/minions/orchestrator.py` — `Orchestrator.run`, `Orchestrator._execute_tool`,
  `Orchestrator._parse_tool_calls` (extraction abstracted), `Orchestrator._looks_done`,
  `Orchestrator._create_pr`, and the branch-slug derivation;
* `src/minions/tools/lint_tools.py` — `LintTools.run_relevant_linters`;
* `src/minions/tools/git_tools.py` — the `GitTools` facade;
* `src/minions/tools/pr_tools.py` — `create_pr`;
* `src/minions/llm.py` — `LLMClient.complete`.

Modelling conventions:

* Python `dict`s parsed from JSON become association lists `List (String × JVal)`
  with first-wins lookup (parsed JSON objects have unique keys).
* External effects (the filesystem, `subprocess` invocations of `patch`, the
  shell, `git`, linters, `gh`, and the hosted LLM / GitHub APIs) are oracles:
  explicit function arguments giving the outcome of each invocation.  A raised
  Python exception is `Except.error`; a normal return is `Except.ok`.
* Python string methods are re-implemented on `List Char` so that every
  definition evaluates inside the kernel (`lower`, `strip`, slicing,
  `startswith`, `endswith`, `in`).  `strip()` is modelled on the four common
  ASCII whitespace characters.
* The regex-plus-JSON extraction of tool calls from model text
  (`_parse_tool_calls`) is not re-implemented; the script of a run carries, per
  turn, the list of parsed tool-call objects together with the raw response
  text, exactly the data the loop body consumes.
-/

namespace Minions

/-! ## Python-style string primitives (kernel-computable) -/

/-- `str.lower()` (faithful on ASCII, which is all the embedded code compares). -/
def strLower (s : String) : String := ⟨s.data.map Char.toLower⟩

/-- `s[:n]` on a Python string. -/
def strTake (s : String) (n : Nat) : String := ⟨s.data.take n⟩

/-- ASCII whitespace for the `str.strip()` model. -/
def wsChar (c : Char) : Bool := c == ' ' || c == '\t' || c == '\n' || c == '\r'

/-- `str.strip()` (whitespace on both ends). -/
def strTrim (s : String) : String :=
  ⟨((s.data.dropWhile wsChar).reverse.dropWhile wsChar).reverse⟩

/-- `str.startswith(pre)`. -/
def strStartsWith (s pre : String) : Bool := pre.data.isPrefixOf s.data

/-- `str.endswith(suf)`. -/
def strEndsWith (s suf : String) : Bool := suf.data.isSuffixOf s.data

/-- Python `needle in hay` on strings. -/
def strContains (hay needle : String) : Bool :=
  (List.range (hay.data.length + 1)).any (fun i => needle.data.isPrefixOf (hay.data.drop i))

/-! ## JSON-like values and Python dict semantics -/

/-- A JSON value, as produced by `json.loads` on a fenced tool-call block. -/
inductive JVal where
  | str (s : String)
  | num (n : Int)
  | bool (b : Bool)
  | null
  | arr (xs : List JVal)
  | obj (fields : List (String × JVal))

/-- A parsed JSON object / Python dict: association list, first-wins lookup. -/
abbrev Params := List (String × JVal)

/-- Python truthiness of a JSON value. -/
def pyTruthy : JVal → Bool
  | .str s => s != ""
  | .num n => n != 0
  | .bool b => b
  | .null => false
  | .arr xs => !xs.isEmpty
  | .obj fs => !fs.isEmpty

mutual

/-- Python `repr` of a JSON value (string escaping inside containers is not
modelled; no embedded claim depends on it). -/
def pyRepr : JVal → String
  | .str s => "\x27" ++ s ++ "\x27"
  | .num n => toString n
  | .bool true => "True"
  | .bool false => "False"
  | .null => "None"
  | .arr xs => "[" ++ String.intercalate ", " (pyReprList xs) ++ "]"
  | .obj fs => "\x7b" ++ String.intercalate ", " (pyReprFields fs) ++ "\x7d"

/-- `repr` of the elements of a list. -/
def pyReprList : List JVal → List String
  | [] => []
  | v :: vs => pyRepr v :: pyReprList vs

/-- `repr` of the fields of a dict. -/
def pyReprFields : List (String × JVal) → List String
  | [] => []
  | (k, v) :: fs => ("\x27" ++ k ++ "\x27: " ++ pyRepr v) :: pyReprFields fs

end

/-- Python `str()` of a JSON value (as used by an f-string). -/
def pyStr : JVal → String
  | .str s => s
  | v => pyRepr v

/-- `params.get(key, dflt)`. -/
def pyGet (params : Params) (key : String) (dflt : JVal) : JVal :=
  (params.lookup key).getD dflt

/-- `params.get(key) or ""` — the dict lookup followed by Python `or`. -/
def pyGetOrEmpty (params : Params) (key : String) : JVal :=
  match params.lookup key with
  | some v => if pyTruthy v then v else .str ""
  | none => .str ""

/-! ## The Tool-Execution Engine (`Orchestrator._execute_tool`) -/

/-- The working tree: relative path → file text, newest write first. -/
abbrev Fs := List (String × String)

/-- One finished subprocess: return code, stdout, stderr. -/
structure Proc where
  code : Int
  stdout : String
  stderr : String
deriving DecidableEq

/-- Outcomes of the subprocess-backed effects `_execute_tool` touches.
`patch` runs `patch -p1 --forward` with the given diff text against the
working tree (`_apply_diff`); `shell` runs one `subprocess.run(args,
shell=True, timeout=30)`, given here by the argument vector `Popen` appends
after `["/bin/sh", "-c"]` — `[cmd]` for a string command, the listed elements
for a list command (the first is the command proper, the rest become
positional parameters of the shell).  `Except.error` is a raised exception
(e.g. a timeout); the engine is expected to catch it. -/
structure SysOracles where
  patch : String → Fs → Except String Fs
  shell : List String → Except String Proc

/-- `path = (params.get("path") or "").strip()` — the one line of
`_execute_tool` that is executed outside any `try` block.  On a truthy
non-string value the attribute access `.strip` raises, and nothing catches
that exception. -/
def extractPath (params : Params) : Except String String :=
  match pyGetOrEmpty params "path" with
  | .str s => .ok (strTrim s)
  | _ => .error "AttributeError: strip"

/-- `output = (r.stdout + "\n" + r.stderr).strip() or f"exit {returncode}"`,
then `output[:10_000]`. -/
def shellOutput (r : Proc) : String :=
  let out := strTrim (r.stdout ++ "\n" ++ r.stderr)
  strTake (if out = "" then "exit " ++ toString r.code else out) 10000

/-- `_apply_diff` seen from its caller: on a succeeding `patch` subprocess the
new tree and `"Applied diff to {path}"`, on any exception the caught
`"Error applying diff: ..."` string. -/
def applyDiffResult (path : String) (fs : Fs) : Except String Fs → String × Fs
  | .ok fs' => ("Applied diff to " ++ path, fs')
  | .error e => ("Error applying diff: " ++ e, fs)

/-- The `edit_file` branch on an already-fetched `content` value: diff-looking
string content goes to `_apply_diff`; other strings are a full-file write; a
non-string raises `.strip()` inside the `try` and is caught (`"Error..."`). -/
def editFileContent (path : String) (ops : SysOracles) (fs : Fs) : JVal → String × Fs
  | .str content =>
    if strStartsWith (strTrim content) "--- a/"
        || strStartsWith (strTrim content) "diff --git" then
      applyDiffResult path fs (ops.patch content fs)
    else ("Wrote " ++ path, (path, content) :: fs)
  | _ => ("Error: content has no attribute strip", fs)

/-- The `edit_file` branch of `_execute_tool`: empty path is an in-band
error, otherwise dispatch on `params.get("content", "")`. -/
def editFileTool (path : String) (params : Params) (ops : SysOracles) (fs : Fs) :
    String × Fs :=
  if path = "" then ("Error: path required", fs)
  else editFileContent path ops fs (pyGet params "content" (.str ""))

/-- The `read_file` branch: read and truncate to 20,000 characters; a missing
file raises inside the `try` and is caught. -/
def readFileTool (path : String) (fs : Fs) : String × Fs :=
  if path = "" then ("Error: path required", fs)
  else
    match fs.lookup path with
    | some text => (strTake text 20000, fs)
    | none => ("Error: No such file or directory: " ++ path, fs)

/-- The tail of the `run_shell` branch: a raised subprocess (e.g. the
30-second timeout) is caught; otherwise stdout+stderr are combined and
truncated. -/
def shellResult (fs : Fs) : Except String Proc → String × Fs
  | .ok r => (shellOutput r, fs)
  | .error e => ("Error: " ++ e, fs)

/-- A single `Popen` argument: it must be `str` (or bytes / PathLike, which
JSON cannot produce); anything else raises `TypeError`. -/
def popenArg : JVal → Option String
  | .str s => some s
  | _ => none

/-- The argument vector `subprocess.run(command, shell=True)` hands to the
shell after `["/bin/sh", "-c"]`: a string command contributes itself; `Popen`
turns any other value into `list(value)`, so a JSON array contributes its
elements (each of which must be a string, else `TypeError`) and an object
contributes its keys; a number or boolean is not iterable and raises
`TypeError`.  `none` models the raised `TypeError`, which the surrounding
`try` catches. -/
def shellArgs : JVal → Option (List String)
  | .str cmd => some [cmd]
  | .arr xs => xs.mapM popenArg
  | .obj fields => some (fields.map Prod.fst)
  | _ => none

/-- Run the shell (or catch the `TypeError` from an unusable argument
vector). -/
def runShellArgv (ops : SysOracles) (fs : Fs) : Option (List String) → String × Fs
  | some argv => shellResult fs (ops.shell argv)
  | none => ("Error: expected str, bytes or os.PathLike object", fs)

/-- The `run_shell` branch on the fetched `command` value: strings, lists
and dicts all reach the shell; non-iterable values and non-string list
elements raise `TypeError` inside the `try` and are caught. -/
def runShellCmd (ops : SysOracles) (fs : Fs) (command : JVal) : String × Fs :=
  runShellArgv ops fs (shellArgs command)

/-- The `run_shell` branch of `_execute_tool`: falsy command is an in-band
error, otherwise run it. -/
def runShellTool (params : Params) (ops : SysOracles) (fs : Fs) : String × Fs :=
  if !pyTruthy (pyGet params "command" (.str "")) then ("Error: command required", fs)
  else runShellCmd ops fs (pyGet params "command" (.str ""))

/-- The body of `_execute_tool` after the `path` extraction: the
`if`/`elif` dispatch on the tool name.  Every branch returns a result string
(paired here with the updated working tree); unknown names fall through to
`"Unknown tool: {name}"`. -/
def dispatchTool (name path : String) (params : Params) (ops : SysOracles) (fs : Fs) :
    String × Fs :=
  if name = "edit_file" then editFileTool path params ops fs
  else if name = "read_file" then readFileTool path fs
  else if name = "run_shell" then runShellTool params ops fs
  else if name = "done" then
    ("Done: " ++ pyStr (pyGet params "summary" (.str "")), fs)
  else ("Unknown tool: " ++ name, fs)

/-- `Orchestrator._execute_tool(name, params)`: extract `path` (the only
statement that can raise out of the engine), then dispatch.  `Except.error`
models an exception escaping `_execute_tool`. -/
def executeTool (name : String) (params : Params) (ops : SysOracles) (fs : Fs) :
    Except String (String × Fs) :=
  match extractPath params with
  | .error e => .error e
  | .ok path => .ok (dispatchTool name path params ops fs)

/-! ## Branch-slug derivation (`Orchestrator.run`, GIT phase)

`safe_name = re.sub(r"[^a-z0-9-]", "-", task[:40].lower()).strip("-")[:30]` -/

/-- Membership in the regex class `[a-z0-9-]`. -/
def IsSlugChar (c : Char) : Prop :=
  ('a' ≤ c ∧ c ≤ 'z') ∨ ('0' ≤ c ∧ c ≤ '9') ∨ c = '-'

instance : DecidablePred IsSlugChar := fun c => by
  unfold IsSlugChar; infer_instance

/-- `str.strip("-")`. -/
def stripDash (l : List Char) : List Char :=
  ((l.dropWhile (· == '-')).reverse.dropWhile (· == '-')).reverse

/-- The branch slug: first 40 characters of the task, lowercased, each
character outside `[a-z0-9-]` replaced by `'-'` (one `'-'` per character —
`re.sub` does not collapse runs), `'-'` stripped from both ends, then capped
to 30 characters. -/
def slugify (task : String) : String :=
  ⟨(stripDash (((task.data.take 40).map Char.toLower).map
      (fun c => if IsSlugChar c then c else '-'))).take 30⟩

/-! ## The lint facade (`LintTools`) -/

/-- Environment of one `LintTools` call: the currently staged files
(`git diff --cached --name-only`) and one oracle per linter binary.
`Except.error ()` is `FileNotFoundError` / `TimeoutExpired` (linter absent or
too slow); `Except.ok r` is the finished linter subprocess. -/
structure LintEnv where
  staged : List String
  ruff : List String → Except Unit Proc
  eslint : List String → Except Unit Proc

/-- `LintTools._run_ruff`. -/
def runRuff (env : LintEnv) (paths : List String) : Bool × String :=
  match env.ruff paths with
  | .ok r => if r.code ≠ 0 then (false, r.stdout ++ r.stderr) else (true, r.stdout)
  | .error _ => (true, "")

/-- `LintTools._run_eslint`. -/
def runEslint (env : LintEnv) (paths : List String) : Bool × String :=
  match env.eslint paths with
  | .ok r => if r.code ≠ 0 then (false, r.stdout ++ r.stderr) else (true, r.stdout)
  | .error _ => (true, "")

/-- `LintTools.run_relevant_linters(paths)`: default to staged files, fall back
to `["."]` when that is empty, bucket the paths by extension, run each linter
only on a non-empty bucket, and join the labelled outputs. -/
def runRelevantLinters (env : LintEnv) (pathsArg : Option (List String)) : Bool × String :=
  let paths0 := match pathsArg with
    | none => env.staged
    | some ps => ps
  let paths := if paths0.isEmpty then ["."] else paths0
  let pyFiles := paths.filter (fun p => strEndsWith p ".py")
  let jsFiles := paths.filter (fun p =>
    strEndsWith p ".js" || strEndsWith p ".ts" || strEndsWith p ".tsx")
  let (ok1, outs1) :=
    if pyFiles.isEmpty then (true, ([] : List String))
    else
      let (ok, out) := runRuff env pyFiles
      (ok, if out = "" then [] else ["ruff:\n" ++ out])
  let (ok2, outs2) :=
    if jsFiles.isEmpty then (true, ([] : List String))
    else
      let (ok, out) := runEslint env jsFiles
      (ok, if out = "" then [] else ["eslint:\n" ++ out])
  let outs := outs1 ++ outs2
  (ok1 && ok2,
    if outs.isEmpty then "No linters run (no matching files)." else String.intercalate "\n\n" outs)

/-! ## The git facade (`GitTools`)

Every operation funnels through `GitTools._run`, i.e. `subprocess.run(["git",
*args], check=check)` with `check` defaulting to `True`; `check=True` raises
`CalledProcessError` on a non-zero exit, and no call site passes
`check=False`.  The oracle `G` maps the argument vector to the finished
subprocess. -/

/-- `GitTools._run(*args, check=check)`. -/
def gitRun (G : List String → Proc) (args : List String) (check : Bool) :
    Except String Proc :=
  let r := G args
  if check && r.code != 0 then
    .error ("CalledProcessError: git " ++ String.intercalate " " args)
  else .ok r

/-- `GitTools.current_branch`. -/
def currentBranch (G : List String → Proc) : Except String String :=
  (gitRun G ["branch", "--show-current"] true).map (fun r =>
    if strTrim r.stdout = "" then "HEAD" else strTrim r.stdout)

/-- `GitTools.create_branch(name)` (`pref` is `config.branch_prefix`). -/
def createBranch (G : List String → Proc) (pref name : String) : Except String String :=
  (gitRun G ["checkout", "-b", pref ++ name] true).map (fun _ => pref ++ name)

/-- The staging half of `GitTools.stage_and_commit`: `git add` each given
path, or `git add -A` when `paths` is falsy (`None` or `[]`). -/
def stageAdds (G : List String → Proc) : Option (List String) → Except String Unit
  | some (p :: ps) => (p :: ps).forM (fun q => do let _ ← gitRun G ["add", q] true)
  | some [] => (gitRun G ["add", "-A"] true).map (fun _ => ())
  | none => (gitRun G ["add", "-A"] true).map (fun _ => ())

/-- `GitTools.stage_and_commit(message, paths)`. -/
def stageAndCommit (G : List String → Proc) (message : String)
    (paths : Option (List String)) : Except String Unit := do
  stageAdds G paths
  let _ ← gitRun G ["commit", "-m", message] true

/-- `GitTools.push(branch)` (`remote` is `config.remote`). -/
def gitPush (G : List String → Proc) (remote : String) (branch : Option String) :
    Except String String := do
  let b ← match branch with
    | some b => if b = "" then currentBranch G else pure b
    | none => currentBranch G
  let r ← gitRun G ["push", "-u", remote, b] true
  pure (r.stdout ++ r.stderr)

/-- `GitTools.status`. -/
def gitStatus (G : List String → Proc) : Except String String :=
  (gitRun G ["status", "--short"] true).map (·.stdout)

/-- The extra arguments `GitTools.diff` appends: the paths when truthy
(`if paths:`), nothing for `None` or `[]`. -/
def diffPathArgs : Option (List String) → List String
  | some (p :: ps) => p :: ps
  | some [] => []
  | none => []

/-- `GitTools.diff(paths)`. -/
def gitDiff (G : List String → Proc) (paths : Option (List String)) :
    Except String String :=
  (gitRun G (["diff", "--no-color"] ++ diffPathArgs paths) true).map (·.stdout)

/-- `GitTools.has_changes`. -/
def hasChanges (G : List String → Proc) : Except String Bool :=
  (gitRun G ["status", "--porcelain"] true).map (fun r => strTrim r.stdout != "")

/-- `GitTools.fetch_latest`. -/
def fetchLatest (G : List String → Proc) (remote base : String) : Except String Unit :=
  (gitRun G ["fetch", remote, base] true).map (fun _ => ())

/-! ## The provider fallback client (`LLMClient.complete`) -/

/-- The provider fields of `LLMConfig` (`fallback_provider`/`fallback_model`
are `str | None`). -/
structure LLMCfg where
  provider : String
  model : String
  fallbackProvider : Option String
  fallbackModel : Option String

/-- The ordered provider chain built at the top of `complete`: the primary
pair, then the fallback pair when both fallback fields are truthy. -/
def providerChain (cfg : LLMCfg) : List (String × String) :=
  (cfg.provider, cfg.model) ::
    (match cfg.fallbackProvider, cfg.fallbackModel with
      | some p, some m => if p ≠ "" && m ≠ "" then [(p, m)] else []
      | _, _ => [])

/-- One provider attempt inside the `try`: dispatch on the provider id; an
unknown id raises `ValueError` (caught by the same `except`).  The oracle `O`
gives the outcome of the underlying API call for a `(provider, model)` pair:
`.ok text` or a raised exception. -/
def attemptProvider (O : String → String → Except String String) (p m : String) :
    Except String String :=
  if p = "anthropic" then O p m
  else if p = "openai" then O p m
  else .error ("Unknown provider: " ++ p)

/-- The `for provider, model in providers` loop: first success wins, the last
exception is re-raised after the chain is exhausted. -/
def completeGo (O : String → String → Except String String) :
    List (String × String) → Option String → Except String String
  | [], last => .error (last.getD "No LLM provider available")
  | (p, m) :: rest, _ =>
    match attemptProvider O p m with
    | .ok t => .ok t
    | .error e => completeGo O rest (some e)

/-- `LLMClient.complete`. -/
def llmComplete (cfg : LLMCfg) (O : String → String → Except String String) :
    Except String String :=
  completeGo O (providerChain cfg) none

/-! ## PR creation (`pr_tools.create_pr` and `Orchestrator._create_pr`) -/

/-- `pr_tools.create_pr`: run `gh pr create`; `Except.error ()` is
`FileNotFoundError` / `TimeoutExpired` (binary absent or timed out), both
caught and turned into `None`; a non-zero exit is also `None`; success is the
stripped stdout (the PR URL). -/
def createPrCli (gh : Except Unit Proc) : Option String :=
  match gh with
  | .error _ => none
  | .ok r => if r.code = 0 then some (strTrim r.stdout) else none

/-- The external outcomes `Orchestrator._create_pr` consumes: the stripped
stdout of `git remote get-url` (empty when the remote is missing), the whole
hosted-API attempt (client construction plus `create_pull_request`;
`.error` is any raised exception, which the surrounding `except` catches and
logs), and the `gh pr create` subprocess. -/
structure PrEnv where
  remoteUrl : String
  api : Except String String
  gh : Except Unit Proc

/-- `Orchestrator._create_pr(state, task, github_token)`: try the hosted API
when a token and a branch are present and the remote resolves; on any
exception (or when the API path is unavailable) fall back to the CLI.  Total:
it never raises. -/
def createPrFull (tok : Option String) (branch : Option String) (env : PrEnv) :
    Option String :=
  if tok.getD "" ≠ "" ∧ branch.getD "" ≠ "" then
    if env.remoteUrl ≠ "" then
      match env.api with
      | .ok url => some url
      | .error _ => createPrCli env.gh
    else createPrCli env.gh
  else createPrCli env.gh

/-! ## The run orchestrator (`Orchestrator.run`) -/

/-- `Orchestrator._looks_done`: fixed completion phrases matched as
case-insensitive substrings. -/
def doneSignals : List String :=
  ["task is complete", "task is done", "changes are complete", "all done",
   "i\x27ve completed", "i have completed"]

/-- Heuristic completion check on a model response. -/
def looksDone (response : String) : Bool :=
  doneSignals.any (fun sig => strContains (strLower response) sig)

/-- The corrective message appended when a response holds no tool call and no
completion phrase. -/
def correctiveMsg : String :=
  "Please use the edit_file tool to make changes, or the done tool if finished."

/-- `RunState` (the mutable per-run state of `orchestrator.py`).  Messages are
`(role, content)` pairs; actions are the appended audit dicts. -/
structure RunStateM where
  task : String
  messages : List (String × String)
  actions : List Params
  branchName : Option String
  prUrl : Option String
  ciRound : Nat
  done : Bool

/-- `tc.get("name", "")` as the loop uses it.  A non-string name value is
modelled by its `str()` rendering: every downstream use either stringifies the
name (f-strings) or compares it with a string literal, and no non-string
value renders equal to a tool-name literal. -/
def nameOf (tc : Params) : String := pyStr (pyGet tc "name" (.str ""))

/-- `params = tc.get("parameters", tc)`: the `"parameters"` value when the key
is present, the whole object otherwise.  When the key holds a non-dict the
subsequent `params.get` in `_execute_tool` raises `AttributeError` (nothing
catches it). -/
def paramsOf (tc : Params) : Except String Params :=
  match tc.lookup "parameters" with
  | some (.obj o) => .ok o
  | none => .ok tc
  | some _ => .error "AttributeError: get"

/-- The input of one model turn to the loop body: the raw completion text,
the tool calls `_parse_tool_calls` extracted from it, and the outcome of the
mid-loop lint pass over the files this turn edited (an oracle, like every other
subprocess result). -/
structure TurnInput where
  response : String
  calls : List Params
  lintOk : Bool
  lintOut : String

/-- Append one executed call's audit action
`{"tool": name, "params": params, "result": result}` to the state. -/
def recordCall (tc : Params) (params : Params) (st : RunStateM) (r : String) :
    RunStateM :=
  { st with actions := st.actions ++
      [[("tool", .str (nameOf tc)), ("params", .obj params), ("result", .str r)]] }

/-- The `for tc in tool_calls` body: execute each call, append the audit
action, collect `"{name}: {result}"` lines, and stop at a `done` call after
recording it.  `Except.error` is an exception escaping the loop (and the whole
run). -/
def runCalls (ops : SysOracles) :
    List Params → RunStateM → Fs → List String → Except String (RunStateM × Fs × List String)
  | [], st, fs, acc => .ok (st, fs, acc.reverse)
  | tc :: rest, st, fs, acc =>
    match paramsOf tc with
    | .error e => .error e
    | .ok params =>
      match executeTool (nameOf tc) params ops fs with
      | .error e => .error e
      | .ok (r, fs') =>
        if nameOf tc = "done" then
          .ok ({ recordCall tc params st r with done := true }, fs',
            ((nameOf tc ++ ": " ++ r) :: acc).reverse)
        else
          runCalls ops rest (recordCall tc params st r) fs' ((nameOf tc ++ ": " ++ r) :: acc)

/-- The truthy `"path"` parameters of the `edit_file` calls of this turn
(`edited_paths` in the loop).  By the time this list is computed every listed
call has executed without raising, so each such value is a string. -/
def editedPaths (calls : List Params) : List JVal :=
  ((calls.filter (fun tc => nameOf tc == "edit_file")).filterMap (fun tc =>
    match tc.lookup "parameters" with
    | some (.obj o) => o.lookup "path"
    | none => tc.lookup "path"
    | some _ => none)).filter pyTruthy

/-- `if tool_results:` — feed the collected results back as one user
message. -/
def withResults (results : List String) (st : RunStateM) : RunStateM :=
  if results.isEmpty then st
  else { st with messages :=
    st.messages ++ [("user", "Tool results:\n" ++ String.intercalate "\n" results)] }

/-- The mid-loop lint step: run only when this turn edited files; feed a
failure back as a corrective user message. -/
def lintFeedback (t : TurnInput) (st : RunStateM) : RunStateM :=
  if (editedPaths t.calls).isEmpty then st
  else if t.lintOk then st
  else { st with messages :=
    st.messages ++ [("user", "Linter failed. Fix the issues:\n\n" ++ t.lintOut)] }

/-- What follows the tool-call execution of a turn: feed results back, then (when
not done) the lint step. -/
def afterCalls (t : TurnInput) : RunStateM × Fs × List String → RunStateM × Fs
  | (st, fs, results) =>
    if (withResults results st).done then (withResults results st, fs)
    else (lintFeedback t (withResults results st), fs)

/-- One iteration of the agent loop: append the assistant message; with no
tool calls either finish (completion phrase) or append the corrective
message; otherwise execute the calls, feed the results back as one user
message, and, when not done and files were edited, run the lint facade and
feed a failure back. -/
def runTurn (ops : SysOracles) (t : TurnInput) (st : RunStateM) (fs : Fs) :
    Except String (RunStateM × Fs) :=
  let st := { st with messages := st.messages ++ [("assistant", t.response)] }
  if t.calls.isEmpty then
    if looksDone t.response then .ok ({ st with done := true }, fs)
    else .ok ({ st with messages := st.messages ++ [("user", correctiveMsg)] }, fs)
  else (runCalls ops t.calls st fs []).map (afterCalls t)

/-- The agent loop: run turns in order until `done` or the script (already
capped at 20 turns by the caller) is exhausted. -/
def runLoop (ops : SysOracles) :
    List TurnInput → RunStateM → Fs → Except String (RunStateM × Fs)
  | [], st, fs => .ok (st, fs)
  | t :: rest, st, fs =>
    match runTurn ops t st fs with
    | .error e => .error e
    | .ok (st', fs') =>
      if st'.done then .ok (st', fs')
      else runLoop ops rest st' fs'

/-- Everything outside one run that `Orchestrator.run` consumes: the task, the
scripted model turns, the subprocess oracles, the initial working tree, the
post-loop `git.has_changes()` answer, whether the git subprocesses
(branch/commit/push) exit zero (a non-zero exit raises and aborts the run),
the configured branch prefix string, the post-commit full-diff lint outcome,
and the PR-phase inputs. -/
structure RunEnv where
  task : String
  script : List TurnInput
  ops : SysOracles
  fs0 : Fs
  gitHasChanges : Bool
  gitOk : Bool
  branchPref : String
  postLintOk : Bool
  postLintOut : String
  createPrAfter : Bool
  token : Option String
  pr : PrEnv

/-- The fresh `RunState` plus the initial user message. -/
def initState (env : RunEnv) : RunStateM :=
  { task := env.task
    messages := [("user", "Task: " ++ env.task ++ "\n\nProceed to complete this task.")]
    actions := []
    branchName := none
    prUrl := none
    ciRound := 0
    done := false }

/-- The agent-loop phase of a run (turns capped at 20). -/
def loopResult (env : RunEnv) : Except String (RunStateM × Fs) :=
  runLoop env.ops (env.script.take 20) (initState env) env.fs0

/-- The branch-name and `ci_round` updates of the git phase: set the branch,
commit (success assumed here, see `gitOk`), then record a failing post-commit
full-diff lint pass as `ci_round = 1`. -/
def gitUpdates (env : RunEnv) (st : RunStateM) : RunStateM :=
  if !env.postLintOk then
    { st with branchName := some (env.branchPref ++ slugify env.task), ciRound := 1 }
  else { st with branchName := some (env.branchPref ++ slugify env.task) }

/-- The PR phase: on a created PR, record the URL and the synthetic
`create_pr` action `{"tool": ..., "result": ...}`. -/
def prPhase (env : RunEnv) (st : RunStateM) : RunStateM :=
  if env.createPrAfter then
    match createPrFull env.token st.branchName env.pr with
    | some url =>
      { st with prUrl := some url,
                actions := st.actions ++ [[("tool", .str "create_pr"), ("result", .str url)]] }
    | none => st
  else st

/-- The git-and-PR tail of `Orchestrator.run`: runs only when `done` and the
tree has changes; a failing git subprocess raises and aborts the run. -/
def gitPhase (env : RunEnv) (st : RunStateM) : Except String RunStateM :=
  if st.done && env.gitHasChanges then
    if !env.gitOk then .error "CalledProcessError: git"
    else .ok (prPhase env (gitUpdates env st))
  else .ok st

/-- `Orchestrator.run`: agent loop, then — only when `done` and the tree has
changes — branch/commit, the post-commit full-diff lint pass (a failure sets
`ci_round = 1`), push, and the optional PR phase, whose success appends the
synthetic `create_pr` action. -/
def runMinion (env : RunEnv) : Except String RunStateM :=
  match loopResult env with
  | .error e => .error e
  | .ok (st, _fs) => gitPhase env st

/-- Whether the run reaches the commit: the loop finished with `done`, the
tree had changes, and the git subprocesses succeeded. -/
def commitMade (env : RunEnv) : Bool :=
  match loopResult env with
  | .ok (st, _) => st.done && env.gitHasChanges && env.gitOk
  | .error _ => false

/-! ## Theorems -/

/-! ### C3 — branch slug shape -/

theorem mem_stripDash {c : Char} {l : List Char} (h : c ∈ stripDash l) : c ∈ l := by
  unfold stripDash at h
  rw [List.mem_reverse] at h
  have h2 := (List.dropWhile_sublist (l := (l.dropWhile (· == '-')).reverse)
    (p := (· == '-'))).mem h
  rw [List.mem_reverse] at h2
  exact (List.dropWhile_sublist (l := l) (p := (· == '-'))).mem h2

theorem head_dropWhile_dash (l : List Char) (x : Char)
    (h : (l.dropWhile (· == '-')).head? = some x) : x ≠ '-' := by
  induction l with
  | nil => simp [List.dropWhile] at h
  | cons a l ih =>
    rw [List.dropWhile_cons] at h
    by_cases ha : (a == '-') = true
    · rw [if_pos ha] at h
      exact ih h
    · rw [if_neg ha] at h
      simp only [List.head?_cons, Option.some.injEq] at h
      subst h
      simpa using ha

theorem head_stripDash (l : List Char) (x : Char)
    (h : (stripDash l).head? = some x) : x ≠ '-' := by
  set d := l.dropWhile (· == '-') with hd
  have hsplit : stripDash l ++ (d.reverse.takeWhile (· == '-')).reverse = d := by
    unfold stripDash
    rw [← hd, ← List.reverse_append, List.takeWhile_append_dropWhile, List.reverse_reverse]
  apply head_dropWhile_dash l x
  rw [← hd, ← hsplit]
  cases hs : stripDash l with
  | nil => rw [hs] at h; simp at h
  | cons b t =>
    rw [hs] at h
    simp only [List.head?_cons, Option.some.injEq] at h
    subst h
    rfl

theorem head_take {α : Type} (l : List α) (x : α) (n : Nat)
    (h : (l.take n).head? = some x) : l.head? = some x := by
  cases l with
  | nil => simp at h
  | cons a t =>
    cases n with
    | zero => simp at h
    | succ m => simpa using h

/-- C3 (amended): for every task the derived branch slug consists only of
`[a-z0-9-]` characters, is at most 30 characters long, and never starts with
`'-'`; it can be empty, and the 30-character cap (applied after the strip) can
leave a trailing `'-'`.  The specific task `"Fix login bug!! urgently"` does
yield a slug matching the full original pattern `^[a-z0-9-]{1,30}$` with no
leading or trailing `'-'` (note the three consecutive dashes: `re.sub`
replaces each character separately, it does not collapse runs). -/
theorem slug_shape :
    (∀ task : String,
      (slugify task).data.length ≤ 30 ∧
      (∀ c ∈ (slugify task).data, IsSlugChar c) ∧
      (∀ c, (slugify task).data.head? = some c → c ≠ '-'))
    ∧ slugify "Fix login bug!! urgently" = "fix-login-bug---urgently"
    ∧ (1 ≤ (slugify "Fix login bug!! urgently").data.length ∧
       (slugify "Fix login bug!! urgently").data.length ≤ 30 ∧
       (slugify "Fix login bug!! urgently").data.head? ≠ some '-' ∧
       (slugify "Fix login bug!! urgently").data.getLast? ≠ some '-') := by
  refine ⟨fun task => ⟨?_, ?_, ?_⟩, by decide, by decide⟩
  · show ((stripDash _).take 30).length ≤ 30
    exact List.length_take_le 30 _
  · intro c hc
    have hc' : c ∈ stripDash (((task.data.take 40).map Char.toLower).map
        (fun c => if IsSlugChar c then c else '-')) :=
      (List.take_sublist 30 _).mem hc
    have hc2 := mem_stripDash hc'
    rcases List.mem_map.mp hc2 with ⟨a, _, ha⟩
    by_cases h : IsSlugChar a
    · rw [if_pos h] at ha; rwa [← ha]
    · rw [if_neg h] at ha; rw [← ha]; right; right; rfl
  · intro c hc
    exact head_stripDash _ c (head_take _ c 30 hc)

/-- C3 witness: the amended theorem applied at the concrete task from the
spec scenario. -/
theorem slug_shape_witness :
    (slugify "Fix login bug!! urgently").data.length ≤ 30 ∧ IsSlugChar 'f' :=
  ⟨(slug_shape.1 "Fix login bug!! urgently").1,
   (slug_shape.1 "Fix login bug!! urgently").2.1 'f' (by decide)⟩

/-- C3 counterexample: the claim as stated fails.  A task whose first 40
characters hold no `[a-z0-9]` character yields the empty slug (length 0, so it
cannot match `^[a-z0-9-]{1,30}$`), and the 30-character cap can land on a
`'-'`, leaving a trailing dash. -/
theorem slug_shape_cex :
    slugify "!" = "" ∧
    ¬ 1 ≤ (slugify "!").data.length ∧
    (slugify "aaaaaaaaaaaaaaaaaaaaaaaaaaaaa-b").data.getLast? = some '-' := by
  refine ⟨rfl, by decide, by decide⟩

/-! ### C4 — `run_relevant_linters` with no paths and nothing staged -/

/-- C4: with `paths` omitted and no staged files, the code substitutes the
whole-tree sentinel `["."]` but then buckets paths by file extension, and
`"."` ends with neither `".py"` nor a JS extension — so both buckets are
empty, no linter is invoked (the result does not depend on either linter
oracle), and the call returns `(True, "No linters run (no matching
files).")`.  The claim (and the spec) say the whole tree is linted; the
extension classification defeats the sentinel, so this is a code bug. -/
theorem lint_whole_tree_bug :
    ∀ (ruffO eslintO : List String → Except Unit Proc),
      runRelevantLinters ⟨[], ruffO, eslintO⟩ none
        = (true, "No linters run (no matching files).") :=
  fun _ _ => rfl

/-! ### C5 — git facade operations on non-zero exit -/

theorem gitRun_err (G : List String → Proc) (args : List String)
    (h : (G args).code ≠ 0) :
    gitRun G args true = .error ("CalledProcessError: git " ++ String.intercalate " " args) := by
  have hb : ((G args).code != 0) = true := by simpa [bne_iff_ne] using h
  simp [gitRun, hb]

/-- C5 (amended): every git facade operation — `status` and `diff` included —
raises (`CalledProcessError`) when its git subprocess exits non-zero, because
every operation goes through `_run` with `check=True` (the default) and no
call site passes `check=False`. -/
theorem git_raise_nonzero :
    ∀ (G : List String → Proc), (∀ args, (G args).code ≠ 0) →
      (∃ e, currentBranch G = .error e) ∧
      (∀ pref name, ∃ e, createBranch G pref name = .error e) ∧
      (∀ msg paths, ∃ e, stageAndCommit G msg paths = .error e) ∧
      (∀ remote branch, ∃ e, gitPush G remote branch = .error e) ∧
      (∃ e, gitStatus G = .error e) ∧
      (∀ paths, ∃ e, gitDiff G paths = .error e) ∧
      (∃ e, hasChanges G = .error e) ∧
      (∀ remote base, ∃ e, fetchLatest G remote base = .error e) := by
  intro G h
  refine ⟨?_, fun pref name => ?_, fun msg paths => ?_,
    fun remote branch => ?_, ?_, fun paths => ?_, ?_,
    fun remote base => ?_⟩
  · exact ⟨_, by rw [currentBranch, gitRun_err G _ (h _)]; rfl⟩
  · exact ⟨_, by rw [createBranch, gitRun_err G _ (h _)]; rfl⟩
  · cases paths with
    | none =>
      exact ⟨_, by rw [stageAndCommit, stageAdds, gitRun_err G _ (h _)]; rfl⟩
    | some ps =>
      cases ps with
      | nil =>
        exact ⟨_, by rw [stageAndCommit, stageAdds, gitRun_err G _ (h _)]; rfl⟩
      | cons p ps =>
        exact ⟨_, by
          rw [stageAndCommit, stageAdds]
          show (((gitRun G ["add", p] true >>= _) >>= _) >>= _) = _
          rw [gitRun_err G _ (h _)]
          rfl⟩
  · cases branch with
    | none =>
      exact ⟨_, by
        rw [gitPush]
        show (currentBranch G >>= _) = _
        rw [currentBranch, gitRun_err G _ (h _)]
        rfl⟩
    | some b =>
      by_cases hb : b = ""
      · subst hb
        exact ⟨_, by
          rw [gitPush, if_pos rfl]
          show (currentBranch G >>= _) = _
          rw [currentBranch, gitRun_err G _ (h _)]
          rfl⟩
      · exact ⟨_, by
          rw [gitPush, if_neg hb]
          show (gitRun G ["push", "-u", remote, b] true >>= _) = _
          rw [gitRun_err G _ (h _)]
          rfl⟩
  · exact ⟨_, by rw [gitStatus, gitRun_err G _ (h _)]; rfl⟩
  · exact ⟨_, by rw [gitDiff, gitRun_err G _ (h _)]; rfl⟩
  · exact ⟨_, by rw [hasChanges, gitRun_err G _ (h _)]; rfl⟩
  · exact ⟨_, by rw [fetchLatest, gitRun_err G _ (h _)]; rfl⟩

/-- C5 witness: the amended theorem at a concrete oracle whose every git
invocation exits 1. -/
theorem git_raise_nonzero_witness :
    ∃ e, gitStatus (fun _ => ⟨1, "", ""⟩) = .error e :=
  (git_raise_nonzero (fun _ => ⟨1, "", ""⟩) (fun _ => one_ne_zero)).2.2.2.2.1

/-- C5 counterexample: the claim as stated is false — `status` and `diff` are
not tolerant.  With a git subprocess exiting 1, both raise
`CalledProcessError` instead of returning their output. -/
theorem git_status_diff_raise_cex :
    gitStatus (fun _ => ⟨1, "M file.py", ""⟩)
        = .error "CalledProcessError: git status --short" ∧
      gitDiff (fun _ => ⟨1, "", ""⟩) none
        = .error "CalledProcessError: git diff --no-color" := ⟨rfl, rfl⟩

/-! ### C6 — LLM provider fallback chain -/

theorem completeGo_cons (O : String → String → Except String String)
    (p m : String) (rest : List (String × String)) (last : Option String) :
    completeGo O ((p, m) :: rest) last =
      match attemptProvider O p m with
      | .ok t => .ok t
      | .error e => completeGo O rest (some e) := rfl

theorem completeGo_nil (O : String → String → Except String String)
    (last : Option String) :
    completeGo O [] last = .error (last.getD "No LLM provider available") := rfl

/-- C6: `LLMClient.complete` tries the chain in order.  A succeeding primary
is returned unchanged; a primary exception is swallowed and the fallback (when
configured) is tried, its success returned unchanged; when every provider in
the chain fails, the exception of the last attempted provider is re-raised. -/
theorem llm_fallback_chain :
    ∀ (cfg : LLMCfg) (O : String → String → Except String String),
      (∀ t, attemptProvider O cfg.provider cfg.model = .ok t →
        llmComplete cfg O = .ok t) ∧
      (∀ e, attemptProvider O cfg.provider cfg.model = .error e →
        (providerChain cfg).tail = [] → llmComplete cfg O = .error e) ∧
      (∀ e p m t, attemptProvider O cfg.provider cfg.model = .error e →
        (providerChain cfg).tail = [(p, m)] → attemptProvider O p m = .ok t →
        llmComplete cfg O = .ok t) ∧
      (∀ e p m e2, attemptProvider O cfg.provider cfg.model = .error e →
        (providerChain cfg).tail = [(p, m)] → attemptProvider O p m = .error e2 →
        llmComplete cfg O = .error e2) := by
  intro cfg O
  have hchain : providerChain cfg = (cfg.provider, cfg.model) :: (providerChain cfg).tail :=
    rfl
  refine ⟨fun t h1 => ?_, fun e h1 h2 => ?_, fun e p m t h1 h2 h3 => ?_,
    fun e p m e2 h1 h2 h3 => ?_⟩
  · rw [llmComplete, hchain, completeGo_cons, h1]
  · rw [llmComplete, hchain, h2, completeGo_cons, h1]
    show completeGo O [] (some e) = _
    rw [completeGo_nil]
    rfl
  · rw [llmComplete, hchain, h2, completeGo_cons, h1]
    show completeGo O [(p, m)] (some e) = _
    rw [completeGo_cons, h3]
  · rw [llmComplete, hchain, h2, completeGo_cons, h1]
    show completeGo O [(p, m)] (some e) = _
    rw [completeGo_cons, h3]
    show completeGo O [] (some e2) = _
    rw [completeGo_nil]
    rfl

/-- C6 witness: a primary that raises and a fallback that answers — the
text of the fallback is returned. -/
theorem llm_fallback_chain_witness :
    llmComplete ⟨"anthropic", "m1", some "openai", some "m2"⟩
      (fun p _ => if p = "anthropic" then .error "quota" else .ok "text")
      = .ok "text" :=
  (llm_fallback_chain ⟨"anthropic", "m1", some "openai", some "m2"⟩
    (fun p _ => if p = "anthropic" then .error "quota" else .ok "text")).2.2.1
    "quota" "openai" "m2" "text" rfl rfl rfl

/-! ### C8 — PR creation fallback -/

/-- C8: `_create_pr` is total (it returns `Option`, never an exception).  With
a truthy token and branch, a raised API attempt falls through to the `gh` CLI,
whose zero-exit URL is returned; whenever the API path is failing or
unavailable and the CLI attempt yields nothing, the result is `none`. -/
theorem pr_fallback :
    ∀ (tok branch : Option String) (env : PrEnv),
      (∀ e r, tok.getD "" ≠ "" → branch.getD "" ≠ "" →
        env.api = .error e → env.gh = .ok r → r.code = 0 →
        createPrFull tok branch env = some (strTrim r.stdout)) ∧
      (createPrCli env.gh = none →
        ((∃ e, env.api = .error e) ∨ tok.getD "" = "" ∨ branch.getD "" = "" ∨
          env.remoteUrl = "") →
        createPrFull tok branch env = none) := by
  intro tok branch env
  constructor
  · intro e r htok hbr hapi hgh hcode
    have hcli : createPrCli env.gh = some (strTrim r.stdout) := by
      rw [hgh, createPrCli, if_pos hcode]
    rw [createPrFull, if_pos ⟨htok, hbr⟩]
    by_cases hurl : env.remoteUrl ≠ ""
    · rw [if_pos hurl, hapi, hcli]
    · rw [if_neg hurl, hcli]
  · intro hcli hdis
    rw [createPrFull]
    by_cases hc : tok.getD "" ≠ "" ∧ branch.getD "" ≠ ""
    · rw [if_pos hc]
      by_cases hurl : env.remoteUrl ≠ ""
      · rw [if_pos hurl]
        rcases hdis with ⟨e, he⟩ | ht | hb | hu
        · rw [he, hcli]
        · exact absurd ht hc.1
        · exact absurd hb hc.2
        · exact absurd hu hurl
      · rw [if_neg hurl, hcli]
    · rw [if_neg hc, hcli]

/-- C8 witness: failing API, succeeding CLI — the CLI URL comes back; and
with the CLI also failing, `none` comes back. -/
theorem pr_fallback_witness :
    createPrFull (some "tok") (some "minion/x")
        ⟨"https://github.com/o/r.git", .error "403", .ok ⟨0, "https://github.com/o/r/pull/7\n", ""⟩⟩
      = some "https://github.com/o/r/pull/7" ∧
    createPrFull (some "tok") (some "minion/x")
        ⟨"https://github.com/o/r.git", .error "403", .error ()⟩ = none :=
  ⟨(pr_fallback (some "tok") (some "minion/x")
      ⟨"https://github.com/o/r.git", .error "403", .ok ⟨0, "https://github.com/o/r/pull/7\n", ""⟩⟩).1
      "403" ⟨0, "https://github.com/o/r/pull/7\n", ""⟩
      (by decide) (by decide) rfl rfl rfl,
   (pr_fallback (some "tok") (some "minion/x")
      ⟨"https://github.com/o/r.git", .error "403", .error ()⟩).2
      rfl (Or.inl ⟨"403", rfl⟩)⟩

/-! ### C1 — the tool-execution engine never raises? -/

/-- Oracles whose patch and shell invocations both raise. -/
def opsFail : SysOracles :=
  ⟨fun _ _ => .error "patch failed", fun _ => .error "timed out"⟩

/-- C1 counterexample: (i) a truthy non-string `"path"` parameter makes the
engine raise `AttributeError` out of `_execute_tool` (even for an unknown
tool name), so not every call returns a string; (ii) a failing diff
application returns `"Error applying diff: ..."`, which does not have the
claimed `"Error: ..."` shape. -/
theorem execute_tool_cex :
    executeTool "frobnicate" [("path", JVal.num 5)] opsFail []
        = .error "AttributeError: strip" ∧
    executeTool "edit_file"
        [("path", JVal.str "f"), ("content", JVal.str "diff --git a/f b/f")] opsFail []
        = .ok ("Error applying diff: patch failed", []) ∧
    strStartsWith "Error applying diff: patch failed" "Error: " = false :=
  ⟨rfl, rfl, rfl⟩

theorem isPrefixOf_append (a : List Char) :
    ∀ (s t : List Char), a.isPrefixOf s = true → a.isPrefixOf (s ++ t) = true := by
  induction a with
  | nil => intro s t _; exact List.isPrefixOf_nil_left
  | cons c a ih =>
    intro s t h
    cases s with
    | nil => simp [List.isPrefixOf] at h
    | cons c' s' =>
      simp only [List.isPrefixOf, List.cons_append, Bool.and_eq_true] at h ⊢
      exact ⟨h.1, ih s' t h.2⟩

theorem strStartsWith_append (s t pre : String)
    (h : strStartsWith s pre = true) : strStartsWith (s ++ t) pre = true := by
  unfold strStartsWith at h ⊢
  rw [String.data_append]
  exact isPrefixOf_append _ _ _ h

theorem editFileTool_shape (path : String) (params : Params) (ops : SysOracles) (fs : Fs) :
    (editFileTool path params ops fs).1 = "Wrote " ++ path ∨
    (editFileTool path params ops fs).1 = "Applied diff to " ++ path ∨
    strStartsWith (editFileTool path params ops fs).1 "Error" = true := by
  unfold editFileTool
  by_cases hp : path = ""
  · rw [if_pos hp]
    exact Or.inr (Or.inr rfl)
  · rw [if_neg hp]
    cases hc : pyGet params "content" (.str "") with
    | str content =>
      rw [editFileContent]
      by_cases hd : (strStartsWith (strTrim content) "--- a/"
          || strStartsWith (strTrim content) "diff --git") = true
      · rw [if_pos hd]
        cases hpz : ops.patch content fs with
        | ok fs' => exact Or.inr (Or.inl rfl)
        | error e =>
          exact Or.inr (Or.inr (strStartsWith_append "Error applying diff: " e "Error" rfl))
      · rw [if_neg hd]
        exact Or.inl rfl
    | num n => exact Or.inr (Or.inr rfl)
    | bool b => exact Or.inr (Or.inr rfl)
    | null => exact Or.inr (Or.inr rfl)
    | arr xs => exact Or.inr (Or.inr rfl)
    | obj o => exact Or.inr (Or.inr rfl)

theorem readFileTool_shape (path : String) (fs : Fs) :
    (∃ t, fs.lookup path = some t ∧ (readFileTool path fs).1 = strTake t 20000) ∨
    strStartsWith (readFileTool path fs).1 "Error" = true := by
  unfold readFileTool
  by_cases hp : path = ""
  · rw [if_pos hp]
    exact Or.inr rfl
  · rw [if_neg hp]
    cases hl : fs.lookup path with
    | some t => exact Or.inl ⟨t, rfl, rfl⟩
    | none =>
      exact Or.inr (strStartsWith_append "Error: No such file or directory: " path "Error" rfl)

theorem runShellTool_shape (params : Params) (ops : SysOracles) (fs : Fs) :
    (∃ argv q, shellArgs (pyGet params "command" (.str "")) = some argv ∧
      ops.shell argv = .ok q ∧ (runShellTool params ops fs).1 = shellOutput q) ∨
    strStartsWith (runShellTool params ops fs).1 "Error" = true := by
  unfold runShellTool
  by_cases ht : (!pyTruthy (pyGet params "command" (.str ""))) = true
  · rw [if_pos ht]
    exact Or.inr rfl
  · rw [if_neg ht]
    rw [runShellCmd]
    cases ha : shellArgs (pyGet params "command" (.str "")) with
    | some argv =>
      rw [runShellArgv]
      cases hs : ops.shell argv with
      | ok q => exact Or.inl ⟨argv, q, rfl, hs, rfl⟩
      | error e => exact Or.inr (strStartsWith_append "Error: " e "Error" rfl)
    | none =>
      rw [runShellArgv]
      exact Or.inr rfl

/-- C1 (amended): whenever the `"path"` parameter extraction does not raise
(in particular whenever `"path"` is absent, falsy, or a string — the only
uncaught exception in the engine is `.strip()` on a truthy non-string
`"path"` value), `_execute_tool` returns a string for every tool name and
parameter mapping: a tool name other than the four known ones yields exactly
`"Unknown tool: {name}"`, and each known tool yields its success string or an
in-band error string beginning with `"Error"`. -/
theorem execute_tool_total (name : String) (params : Params) (ops : SysOracles)
    (fs : Fs) (p : String) (h : extractPath params = .ok p) :
    ∃ r fs', executeTool name params ops fs = .ok (r, fs') ∧
      (name ∉ (["edit_file", "read_file", "run_shell", "done"] : List String) →
        r = "Unknown tool: " ++ name) ∧
      (name = "edit_file" →
        r = "Wrote " ++ p ∨ r = "Applied diff to " ++ p ∨
        strStartsWith r "Error" = true) ∧
      (name = "read_file" →
        (∃ t, fs.lookup p = some t ∧ r = strTake t 20000) ∨
        strStartsWith r "Error" = true) ∧
      (name = "run_shell" →
        (∃ argv q, shellArgs (pyGet params "command" (.str "")) = some argv ∧
          ops.shell argv = .ok q ∧ r = shellOutput q) ∨
        strStartsWith r "Error" = true) ∧
      (name = "done" → ∃ s, r = "Done: " ++ s) := by
  refine ⟨(dispatchTool name p params ops fs).1, (dispatchTool name p params ops fs).2,
    ?_, ?_, ?_, ?_, ?_, ?_⟩
  · rw [executeTool, h]
  · intro hn
    simp only [List.mem_cons, List.not_mem_nil, or_false, not_or] at hn
    obtain ⟨h1, h2, h3, h4⟩ := hn
    rw [dispatchTool, if_neg h1, if_neg h2, if_neg h3, if_neg h4]
  · intro he; subst he
    exact editFileTool_shape p params ops fs
  · intro he; subst he
    exact readFileTool_shape p fs
  · intro he; subst he
    exact runShellTool_shape params ops fs
  · intro he; subst he
    exact ⟨pyStr (pyGet params "summary" (.str "")), rfl⟩

/-- C1 witness: the amended theorem at a concrete successful `edit_file`
call. -/
theorem execute_tool_total_witness :
    ∃ r fs', executeTool "edit_file"
        [("path", JVal.str "f"), ("content", JVal.str "hello")] opsFail [] = .ok (r, fs') ∧
      (r = "Wrote " ++ "f" ∨ r = "Applied diff to " ++ "f" ∨
        strStartsWith r "Error" = true) := by
  obtain ⟨r, fs', h1, _, h3, _⟩ := execute_tool_total "edit_file"
    [("path", JVal.str "f"), ("content", JVal.str "hello")] opsFail [] "f" rfl
  exact ⟨r, fs', h1, h3 rfl⟩

/-! ### Shared computation lemmas -/

theorem exbind_ok {α β : Type} (a : α) (f : α → Except String β) :
    (Except.ok a >>= f) = f a := rfl

theorem exbind_err {α β : Type} (e : String) (f : α → Except String β) :
    ((Except.error e : Except String α) >>= f) = .error e := rfl

theorem extractPath_str (s : String) (rest : Params) (hs : s ≠ "") :
    extractPath (("path", JVal.str s) :: rest) = .ok (strTrim s) := by
  have hb : (s != "") = true := by simpa [bne_iff_ne] using hs
  show (match (if (s != "") = true then JVal.str s else JVal.str "") with
        | JVal.str t => Except.ok (strTrim t)
        | _ => Except.error "AttributeError: strip") = Except.ok (strTrim s)
  rw [if_pos hb]

theorem extractPath_lookup_str (ps : Params) (s : String)
    (hl : ps.lookup "path" = some (.str s)) :
    ∃ p, extractPath ps = .ok p := by
  by_cases hb : (s != "") = true
  · exact ⟨strTrim s, by simp only [extractPath, pyGetOrEmpty, hl, pyTruthy, if_pos hb]⟩
  · exact ⟨"", by simp only [extractPath, pyGetOrEmpty, hl, pyTruthy, if_neg hb]; rfl⟩

theorem runCalls_single (ops : SysOracles) (tc : Params) (st : RunStateM) (fs : Fs)
    (params : Params) (hp : paramsOf tc = .ok params) (r : String) (fs' : Fs)
    (he : executeTool (nameOf tc) params ops fs = .ok (r, fs'))
    (hn : ¬ nameOf tc = "done") :
    runCalls ops [tc] st fs []
      = .ok ({ st with actions := st.actions ++
          [[("tool", .str (nameOf tc)), ("params", .obj params), ("result", .str r)]] },
        fs', [nameOf tc ++ ": " ++ r]) := by
  simp only [runCalls, hp, he, if_neg hn, recordCall]
  rfl

/-! ### C7 — edit_file / read_file round trip -/

/-- C7 (amended): for a path whose stripped form is non-empty and content
that does not look like a unified diff, `edit_file` writes the full content
and a subsequent `read_file` of the same path returns exactly that content
truncated to 20,000 characters. -/
theorem edit_read_roundtrip (path content : String) (ops : SysOracles) (fs : Fs)
    (h1 : strTrim path ≠ "")
    (h2 : strStartsWith (strTrim content) "--- a/" = false)
    (h3 : strStartsWith (strTrim content) "diff --git" = false) :
    executeTool "edit_file" [("path", .str path), ("content", .str content)] ops fs
        = .ok ("Wrote " ++ strTrim path, (strTrim path, content) :: fs) ∧
    executeTool "read_file" [("path", .str path)] ops ((strTrim path, content) :: fs)
        = .ok (strTake content 20000, (strTrim path, content) :: fs) := by
  have hpne : path ≠ "" := fun e => h1 (by rw [e]; rfl)
  have hcond : ¬ ((strStartsWith (strTrim content) "--- a/"
      || strStartsWith (strTrim content) "diff --git") = true) := by
    rw [h2, h3]; decide
  constructor
  · simp only [executeTool, extractPath_str path _ hpne]
    show Except.ok (editFileTool (strTrim path)
      [("path", JVal.str path), ("content", JVal.str content)] ops fs) = _
    rw [editFileTool, if_neg h1]
    show Except.ok (editFileContent (strTrim path) ops fs (JVal.str content)) = _
    rw [editFileContent, if_neg hcond]
  · simp only [executeTool, extractPath_str path _ hpne]
    show Except.ok (readFileTool (strTrim path) ((strTrim path, content) :: fs)) = _
    rw [readFileTool, if_neg h1]
    have hlook : List.lookup (strTrim path) ((strTrim path, content) :: fs)
        = some content := by simp [List.lookup]
    rw [hlook]

/-- C7 witness: the amended round trip at path `"f"`, content `"hello"`. -/
theorem edit_read_roundtrip_witness :
    executeTool "edit_file" [("path", .str "f"), ("content", .str "hello")] opsFail []
        = .ok ("Wrote f", [("f", "hello")]) ∧
    executeTool "read_file" [("path", .str "f")] opsFail [("f", "hello")]
        = .ok (strTake "hello" 20000, [("f", "hello")]) :=
  edit_read_roundtrip "f" "hello" opsFail [] (by decide) rfl rfl

/-- C7 counterexample: the claim as stated quantifies over every path and
content.  (i) With the empty path, `edit_file` writes nothing and `read_file`
returns an error string, not the written content.  (ii) With content that
looks like a unified diff, `edit_file` does not write the content at all (it
runs `patch`), so reading back (here after a failing patch on an empty tree)
does not return the written content either. -/
theorem edit_read_roundtrip_cex :
    (executeTool "edit_file" [("path", JVal.str ""), ("content", JVal.str "hello")] opsFail []
        = .ok ("Error: path required", []) ∧
     executeTool "read_file" [("path", JVal.str "")] opsFail []
        = .ok ("Error: path required", []) ∧
     ("Error: path required" : String) ≠ strTake "hello" 20000) ∧
    (executeTool "edit_file"
        [("path", JVal.str "g"), ("content", JVal.str "--- a/g\n+++ b/g\n")] opsFail []
        = .ok ("Error applying diff: patch failed", []) ∧
     executeTool "read_file" [("path", JVal.str "g")] opsFail []
        = .ok ("Error: No such file or directory: g", []) ∧
     ("Error: No such file or directory: g" : String)
        ≠ strTake "--- a/g\n+++ b/g\n" 20000) :=
  ⟨⟨rfl, rfl, by decide⟩, ⟨rfl, rfl, by decide⟩⟩

/-! ### C10 — `parameters` key optional in a tool call -/

theorem executeTool_ext (name : String) (ps qs : Params) (ops : SysOracles) (fs : Fs)
    (hpath : ps.lookup "path" = qs.lookup "path")
    (hcontent : ps.lookup "content" = qs.lookup "content")
    (hcommand : ps.lookup "command" = qs.lookup "command")
    (hsummary : ps.lookup "summary" = qs.lookup "summary") :
    executeTool name ps ops fs = executeTool name qs ops fs := by
  unfold executeTool extractPath pyGetOrEmpty
  rw [hpath]
  unfold dispatchTool editFileTool runShellTool pyGet
  rw [hcontent, hcommand, hsummary]

/-- C10: a parsed tool call carrying its arguments directly on the object
(no `"parameters"` key) behaves exactly like the canonical nested form: the
executed result string, the working tree, the fed-back `"{name}: {result}"`
line, and the `tool` and `result` of the recorded action are all identical (the
recorded `params` mapping itself differs: it is the whole object in the
flat form). -/
theorem params_shorthand (P C : String) (ops : SysOracles) (fs : Fs) (st : RunStateM) :
    ∃ stA stB fs' r,
      runCalls ops [[("name", .str "edit_file"), ("path", .str P), ("content", .str C)]]
          st fs [] = .ok (stA, fs', ["edit_file: " ++ r]) ∧
      runCalls ops [[("name", .str "edit_file"),
          ("parameters", .obj [("path", .str P), ("content", .str C)])]] st fs []
        = .ok (stB, fs', ["edit_file: " ++ r]) ∧
      stA.actions.map (fun a => (a.lookup "tool", a.lookup "result"))
        = stB.actions.map (fun a => (a.lookup "tool", a.lookup "result")) ∧
      stA.done = stB.done ∧ stA.messages = stB.messages ∧ stA.ciRound = stB.ciRound := by
  obtain ⟨p, hp⟩ := extractPath_lookup_str
    [("name", .str "edit_file"), ("path", .str P), ("content", .str C)] P rfl
  have heA : executeTool "edit_file"
      [("name", .str "edit_file"), ("path", .str P), ("content", .str C)] ops fs
      = .ok ((dispatchTool "edit_file" p
          [("name", .str "edit_file"), ("path", .str P), ("content", .str C)] ops fs).1,
        (dispatchTool "edit_file" p
          [("name", .str "edit_file"), ("path", .str P), ("content", .str C)] ops fs).2) := by
    simp only [executeTool, hp]
  have heq : executeTool "edit_file"
      [("name", .str "edit_file"), ("path", .str P), ("content", .str C)] ops fs
      = executeTool "edit_file" [("path", .str P), ("content", .str C)] ops fs :=
    executeTool_ext "edit_file" _ _ ops fs rfl rfl rfl rfl
  have heB := heq ▸ heA
  have hA := runCalls_single ops
    [("name", .str "edit_file"), ("path", .str P), ("content", .str C)] st fs
    [("name", .str "edit_file"), ("path", .str P), ("content", .str C)] rfl _ _ heA
    (by decide : ¬ ("edit_file" : String) = "done")
  have hB := runCalls_single ops
    [("name", .str "edit_file"),
      ("parameters", .obj [("path", .str P), ("content", .str C)])] st fs
    [("path", .str P), ("content", .str C)] rfl _ _ heB
    (by decide : ¬ ("edit_file" : String) = "done")
  refine ⟨_, _, _, _, hA, hB, ?_, rfl, rfl, rfl⟩
  rw [List.map_append, List.map_append]
  rfl

/-! ### C2 / C9 — run-level invariants -/

/-- The key list of an action record. -/
def actionKeys (a : Params) : List String := a.map Prod.fst

/-- The `result` value of the action is a string. -/
def ResultIsStr (a : Params) : Prop := ∃ s, a.lookup "result" = some (JVal.str s)

/-- A model-driven action: `{"tool": ..., "params": ..., "result": ...}` with
a string result. -/
def ModelAction (a : Params) : Prop :=
  actionKeys a = ["tool", "params", "result"] ∧ ResultIsStr a

/-- The synthetic PR action: `{"tool": "create_pr", "result": ...}` with a
string result and no `params` key. -/
def PrAction (a : Params) : Prop :=
  actionKeys a = ["tool", "result"] ∧ a.lookup "tool" = some (.str "create_pr") ∧
    ResultIsStr a

theorem runCalls_inv (ops : SysOracles) (tcs : List Params) :
    ∀ (st : RunStateM) (fs : Fs) (acc : List String) (st' : RunStateM) (fs' : Fs)
      (res : List String),
      runCalls ops tcs st fs acc = .ok (st', fs', res) →
      st'.ciRound = st.ciRound ∧ st'.task = st.task ∧
      st'.branchName = st.branchName ∧ st'.prUrl = st.prUrl ∧
      (∀ a ∈ st'.actions, a ∈ st.actions ∨ ModelAction a) := by
  induction tcs with
  | nil =>
    intro st fs acc st' fs' res h
    rw [runCalls] at h
    simp only [Except.ok.injEq, Prod.mk.injEq] at h
    obtain ⟨h1, _, _⟩ := h
    subst h1
    exact ⟨rfl, rfl, rfl, rfl, fun a ha => Or.inl ha⟩
  | cons tc rest ih =>
    intro st fs acc st' fs' res h
    rw [runCalls] at h
    cases hp : paramsOf tc with
    | error e => simp only [hp] at h; exact Except.noConfusion h
    | ok params =>
      simp only [hp] at h
      cases he : executeTool (nameOf tc) params ops fs with
      | error e => simp only [he] at h; exact Except.noConfusion h
      | ok rf =>
        obtain ⟨r, fs2⟩ := rf
        simp only [he] at h
        have hact : ∀ a ∈ (recordCall tc params st r).actions,
            a ∈ st.actions ∨ ModelAction a := by
          intro a ha
          rw [recordCall] at ha
          rcases List.mem_append.mp ha with h1 | h2
          · exact Or.inl h1
          · rcases List.mem_singleton.mp h2 with rfl
            exact Or.inr ⟨rfl, ⟨r, rfl⟩⟩
        by_cases hd : nameOf tc = "done"
        · simp only [if_pos hd] at h
          simp only [Except.ok.injEq, Prod.mk.injEq] at h
          obtain ⟨h1, _, _⟩ := h
          subst h1
          exact ⟨rfl, rfl, rfl, rfl, hact⟩
        · simp only [if_neg hd] at h
          obtain ⟨c1, c2, c3, c4, c5⟩ := ih (recordCall tc params st r) fs2 _ st' fs' res h
          refine ⟨c1, c2, c3, c4, fun a ha => ?_⟩
          rcases c5 a ha with h1 | h2
          · exact hact a h1
          · exact Or.inr h2

theorem withResults_fields (results : List String) (st : RunStateM) :
    (withResults results st).ciRound = st.ciRound ∧
    (withResults results st).task = st.task ∧
    (withResults results st).branchName = st.branchName ∧
    (withResults results st).prUrl = st.prUrl ∧
    (withResults results st).actions = st.actions ∧
    (withResults results st).done = st.done := by
  rw [withResults]
  split <;> exact ⟨rfl, rfl, rfl, rfl, rfl, rfl⟩

theorem lintFeedback_fields (t : TurnInput) (st : RunStateM) :
    (lintFeedback t st).ciRound = st.ciRound ∧
    (lintFeedback t st).task = st.task ∧
    (lintFeedback t st).branchName = st.branchName ∧
    (lintFeedback t st).prUrl = st.prUrl ∧
    (lintFeedback t st).actions = st.actions ∧
    (lintFeedback t st).done = st.done := by
  rw [lintFeedback]
  split
  · exact ⟨rfl, rfl, rfl, rfl, rfl, rfl⟩
  · split <;> exact ⟨rfl, rfl, rfl, rfl, rfl, rfl⟩

theorem afterCalls_fields (t : TurnInput) (x : RunStateM × Fs × List String) :
    (afterCalls t x).1.ciRound = x.1.ciRound ∧
    (afterCalls t x).1.task = x.1.task ∧
    (afterCalls t x).1.branchName = x.1.branchName ∧
    (afterCalls t x).1.prUrl = x.1.prUrl ∧
    (afterCalls t x).1.actions = x.1.actions ∧
    (afterCalls t x).2 = x.2.1 := by
  obtain ⟨st, fs, res⟩ := x
  rw [afterCalls]
  obtain ⟨w1, w2, w3, w4, w5, _⟩ := withResults_fields res st
  obtain ⟨l1, l2, l3, l4, l5, _⟩ := lintFeedback_fields t (withResults res st)
  split
  · exact ⟨w1, w2, w3, w4, w5, rfl⟩
  · exact ⟨l1.trans w1, l2.trans w2, l3.trans w3, l4.trans w4, l5.trans w5, rfl⟩

theorem runTurn_inv (ops : SysOracles) (t : TurnInput) (st : RunStateM) (fs : Fs)
    (st' : RunStateM) (fs' : Fs) (h : runTurn ops t st fs = .ok (st', fs')) :
    st'.ciRound = st.ciRound ∧ st'.task = st.task ∧
    st'.branchName = st.branchName ∧ st'.prUrl = st.prUrl ∧
    (∀ a ∈ st'.actions, a ∈ st.actions ∨ ModelAction a) := by
  rw [runTurn] at h
  by_cases hc : t.calls.isEmpty
  · rw [if_pos hc] at h
    by_cases hl : looksDone t.response = true
    · rw [if_pos hl] at h
      simp only [Except.ok.injEq, Prod.mk.injEq] at h
      obtain ⟨h1, _⟩ := h
      subst h1
      exact ⟨rfl, rfl, rfl, rfl, fun a ha => Or.inl ha⟩
    · rw [if_neg hl] at h
      simp only [Except.ok.injEq, Prod.mk.injEq] at h
      obtain ⟨h1, _⟩ := h
      subst h1
      exact ⟨rfl, rfl, rfl, rfl, fun a ha => Or.inl ha⟩
  · rw [if_neg hc] at h
    cases hr : runCalls ops t.calls
        { st with messages := st.messages ++ [("assistant", t.response)] } fs [] with
    | error e => simp only [hr, Except.map] at h; exact Except.noConfusion h
    | ok v =>
      obtain ⟨v1, v2, v3⟩ := v
      simp only [hr, Except.map, Except.ok.injEq] at h
      have h1 : (afterCalls t (v1, v2, v3)).1 = st' := congrArg Prod.fst h
      rw [← h1]
      obtain ⟨a1, a2, a3, a4, a5, _⟩ := afterCalls_fields t (v1, v2, v3)
      obtain ⟨c1, c2, c3, c4, c5⟩ := runCalls_inv ops t.calls _ fs [] v1 v2 v3 hr
      refine ⟨a1.trans c1, a2.trans c2, a3.trans c3, a4.trans c4, fun a ha => ?_⟩
      rw [a5] at ha
      exact c5 a ha

theorem runLoop_inv (ops : SysOracles) (ts : List TurnInput) :
    ∀ (st : RunStateM) (fs : Fs) (st' : RunStateM) (fs' : Fs),
      runLoop ops ts st fs = .ok (st', fs') →
      st'.ciRound = st.ciRound ∧ st'.task = st.task ∧
      st'.branchName = st.branchName ∧ st'.prUrl = st.prUrl ∧
      (∀ a ∈ st'.actions, a ∈ st.actions ∨ ModelAction a) := by
  induction ts with
  | nil =>
    intro st fs st' fs' h
    rw [runLoop] at h
    simp only [Except.ok.injEq, Prod.mk.injEq] at h
    obtain ⟨h1, _⟩ := h
    subst h1
    exact ⟨rfl, rfl, rfl, rfl, fun a ha => Or.inl ha⟩
  | cons t rest ih =>
    intro st fs st' fs' h
    rw [runLoop] at h
    cases hr : runTurn ops t st fs with
    | error e => simp only [hr] at h; exact Except.noConfusion h
    | ok v =>
      obtain ⟨st1, fs1⟩ := v
      simp only [hr] at h
      obtain ⟨c1, c2, c3, c4, c5⟩ := runTurn_inv ops t st fs st1 fs1 hr
      by_cases hd : st1.done = true
      · simp only [if_pos hd] at h
        simp only [Except.ok.injEq, Prod.mk.injEq] at h
        obtain ⟨h1, _⟩ := h
        subst h1
        exact ⟨c1, c2, c3, c4, c5⟩
      · simp only [if_neg hd] at h
        obtain ⟨d1, d2, d3, d4, d5⟩ := ih st1 fs1 st' fs' h
        refine ⟨d1.trans c1, d2.trans c2, d3.trans c3, d4.trans c4, fun a ha => ?_⟩
        rcases d5 a ha with h1 | h2
        · exact c5 a h1
        · exact Or.inr h2

theorem prPhase_ciRound (env : RunEnv) (st : RunStateM) :
    (prPhase env st).ciRound = st.ciRound := by
  rw [prPhase]
  split
  · split <;> rfl
  · rfl

theorem prPhase_actions (env : RunEnv) (st : RunStateM) :
    ∀ a ∈ (prPhase env st).actions, a ∈ st.actions ∨ PrAction a := by
  intro a ha
  rw [prPhase] at ha
  split at ha
  · split at ha
    · rcases List.mem_append.mp ha with h1 | h2
      · exact Or.inl h1
      · rcases List.mem_singleton.mp h2 with rfl
        exact Or.inr ⟨rfl, rfl, ⟨_, rfl⟩⟩
    · exact Or.inl ha
  · exact Or.inl ha

theorem gitUpdates_ciRound (env : RunEnv) (st : RunStateM) :
    (gitUpdates env st).ciRound = if !env.postLintOk then 1 else st.ciRound := by
  rw [gitUpdates]
  split <;> rfl

theorem gitUpdates_actions (env : RunEnv) (st : RunStateM) :
    (gitUpdates env st).actions = st.actions := by
  rw [gitUpdates]
  split <;> rfl

/-- C2: `ci_round` never changes during the agent loop (so it is `0`, its
initial value, until the git phase), and after a completed run it is `1`
exactly when a commit was made (loop finished `done`, tree had changes, git
succeeded) and the post-commit full-diff lint pass failed — `0` in every
other completed run.  Only these two values ever occur, so it never
decreases. -/
theorem ci_round_spec :
    (∀ (ops : SysOracles) (t : TurnInput) (st : RunStateM) (fs : Fs)
        (st' : RunStateM) (fs' : Fs),
      runTurn ops t st fs = .ok (st', fs') → st'.ciRound = st.ciRound) ∧
    (∀ (env : RunEnv) (st : RunStateM), runMinion env = .ok st →
      st.ciRound = if commitMade env && !env.postLintOk then 1 else 0) := by
  constructor
  · intro ops t st fs st' fs' h
    exact (runTurn_inv ops t st fs st' fs' h).1
  · intro env st h
    rw [runMinion] at h
    cases hl : loopResult env with
    | error e => simp only [hl] at h; exact Except.noConfusion h
    | ok v =>
      obtain ⟨st0, fs0⟩ := v
      simp only [hl] at h
      have hci0 : st0.ciRound = 0 :=
        (runLoop_inv env.ops (env.script.take 20) (initState env) env.fs0 st0 fs0 hl).1
      have hcommit : commitMade env = (st0.done && env.gitHasChanges && env.gitOk) := by
        rw [commitMade, hl]
      rw [gitPhase] at h
      by_cases hd : (st0.done && env.gitHasChanges) = true
      · rw [if_pos hd] at h
        by_cases hg : (!env.gitOk) = true
        · rw [if_pos hg] at h; exact Except.noConfusion h
        · rw [if_neg hg] at h
          simp only [Except.ok.injEq] at h
          rw [← h, prPhase_ciRound, gitUpdates_ciRound, hci0, hcommit]
          have hgok : env.gitOk = true := by
            cases hgv : env.gitOk with
            | true => rfl
            | false => exact absurd (by rw [hgv]; rfl) hg
          rw [hd, hgok]
          by_cases hp : (!env.postLintOk) = true
          · rw [hp]; rfl
          · have hpf : (!env.postLintOk) = false := by
              cases hpv : (!env.postLintOk) with
              | true => exact absurd hpv hp
              | false => rfl
            rw [hpf]; rfl
      · rw [if_neg hd] at h
        simp only [Except.ok.injEq] at h
        rw [← h, hcommit, hci0]
        have hdf : (st0.done && env.gitHasChanges) = false := by
          cases hdv : (st0.done && env.gitHasChanges) with
          | true => exact absurd hdv hd
          | false => rfl
        rw [hdf]
        rfl

/-- A completed run in which a commit is made, the post-commit lint fails,
and a PR is created: one scripted turn that issues the `done` tool. -/
def envC2 : RunEnv :=
  { task := "Fix login bug!! urgently"
    script := [⟨"resp", [[("name", .str "done"), ("summary", .str "ok")]], true, ""⟩]
    ops := opsFail
    fs0 := []
    gitHasChanges := true
    gitOk := true
    branchPref := "minion/"
    postLintOk := false
    postLintOut := "ruff:\nE501"
    createPrAfter := false
    token := none
    pr := ⟨"", .error "x", .error ()⟩ }

/-- C2 witness: the run-level half of the theorem at a concrete completed
run whose post-commit lint fails — `ci_round` is `1`. -/
theorem ci_round_spec_witness :
    ∃ st, runMinion envC2 = .ok st ∧
      st.ciRound = (if commitMade envC2 && !envC2.postLintOk then 1 else 0) ∧
      st.ciRound = 1 :=
  ⟨_, rfl, ci_round_spec.2 envC2 _ rfl, rfl⟩

/-- C9 (amended): every action record appended during a run has the shape
`{tool, params, result}` with a string result — except the synthetic
`create_pr` action, which has the shape `{tool, result}` (no `params` key),
its result being the PR URL string. -/
theorem actions_shape :
    ∀ (env : RunEnv) (st : RunStateM), runMinion env = .ok st →
      ∀ a ∈ st.actions, ModelAction a ∨ PrAction a := by
  intro env st h a ha
  rw [runMinion] at h
  cases hl : loopResult env with
  | error e => simp only [hl] at h; exact Except.noConfusion h
  | ok v =>
    obtain ⟨st0, fs0⟩ := v
    simp only [hl] at h
    have hloop :=
      (runLoop_inv env.ops (env.script.take 20) (initState env) env.fs0 st0 fs0 hl).2.2.2.2
    have hst0 : ∀ b ∈ st0.actions, ModelAction b := by
      intro b hb0
      rcases hloop b hb0 with h1 | h2
      · exact absurd h1 (List.not_mem_nil b)
      · exact h2
    rw [gitPhase] at h
    by_cases hd : (st0.done && env.gitHasChanges) = true
    · rw [if_pos hd] at h
      by_cases hg : (!env.gitOk) = true
      · rw [if_pos hg] at h; exact Except.noConfusion h
      · rw [if_neg hg] at h
        simp only [Except.ok.injEq] at h
        rw [← h] at ha
        rcases prPhase_actions env (gitUpdates env st0) a ha with h1 | h2
        · rw [gitUpdates_actions] at h1
          exact Or.inl (hst0 a h1)
        · exact Or.inr h2
    · rw [if_neg hd] at h
      simp only [Except.ok.injEq] at h
      rw [← h] at ha
      exact Or.inl (hst0 a ha)

/-- A completed run that creates a PR: its action list ends with the
synthetic `create_pr` record. -/
def envC9 : RunEnv :=
  { task := "Add a thing"
    script := [⟨"resp", [[("name", .str "done"), ("summary", .str "ok")]], true, ""⟩]
    ops := opsFail
    fs0 := []
    gitHasChanges := true
    gitOk := true
    branchPref := "minion/"
    postLintOk := true
    postLintOut := ""
    createPrAfter := true
    token := none
    pr := ⟨"", .error "x", .ok ⟨0, "https://example.test/pr/1\n", ""⟩⟩ }

/-- C9 witness: the amended theorem at the concrete PR-creating run. -/
theorem actions_shape_witness :
    ∃ st, runMinion envC9 = .ok st ∧ ∀ a ∈ st.actions, ModelAction a ∨ PrAction a :=
  ⟨_, rfl, actions_shape envC9 _ rfl⟩

/-- C9 counterexample: the claim as stated requires every appended record —
the synthetic `create_pr` one included — to have the keys
`{tool, params, result}`; but the synthetic record appended after a
successful PR creation has only `{tool, result}`. -/
theorem actions_shape_cex :
    (runMinion envC9).map (fun st => st.actions.map actionKeys)
        = .ok [["tool", "params", "result"], ["tool", "result"]] ∧
    (["tool", "result"] : List String) ≠ ["tool", "params", "result"] :=
  ⟨rfl, by decide⟩

end Minions
